import Mathlib

/-!
Verification of expvardash: ring history, poller and gateway handlers

A shallow embedding of `expvardash.go` (and of the older `main.go`, where the two
differ).

Conventions of the embedding.

* Go slices are modelled with an explicit heap of backing arrays: a slice value is
  a header (backing array, offset, len, cap), so that two slices may share storage
  exactly as they do in Go.  `append` follows the Go language specification: it
  re-uses the backing array when the result fits the capacity of its first
  argument and allocates a fresh array otherwise.
* Go `int` values that occur in the buffer (`length`, `currentPos`) are never
  negative (`make` rejects a negative length, `currentPos` is a remainder), so
  they are natural numbers here and Go `%` on them is `Nat` remainder.
  `uint64` counters are naturals, `uint32` arithmetic is taken modulo `2^32`.
* A run-time panic (index out of range, slice bounds out of range) is `none`.
* `sync.RWMutex` operations have no effect in a sequential execution and are
  not represented.
* The network is an input: a function from the requested URL to the outcome of
  `http.Get` + `ioutil.ReadAll` + `json.Unmarshal`, the three places where
  `getStats` can return an error.
-/

namespace Expvardash

/-! ## Data model -/

/-- Go `time.Time`, as the number of nanoseconds since the zero `Time`;
the zero value of the type is `0`. -/
abbrev Time := Int

/-- Go `float64`, represented by its 64-bit IEEE-754 pattern. Values are only
copied by the program, never computed with. -/
structure float64 where
  bits : Nat
deriving DecidableEq, Repr

/-- The fields of `runtime.MemStats` the program reads. `PauseNs` is the Go array
`[256]uint64`; its fixed length is part of the type. -/
structure MemStats where
  Alloc : Nat
  Sys : Nat
  HeapAlloc : Nat
  HeapInuse : Nat
  GCCPUFraction : float64
  NumGC : Nat
  PauseNs : List Nat
  PauseNs_len : PauseNs.length = 256

/-- Go `type debugVars struct { Cmdline []string; Memstats runtime.MemStats }`. -/
structure debugVars where
  Cmdline : List String
  Memstats : MemStats

/-- Go `type debugStats struct`. -/
structure debugStats where
  SampleTime : Time
  Cmd : String
  Alloc : Nat
  Sys : Nat
  HeapAlloc : Nat
  HeapInuse : Nat
  GCCPUFraction : float64
deriving DecidableEq, Repr

/-- The zero value of `debugStats`, with which `make` fills a new slice. -/
def debugStats.zero : debugStats :=
  { SampleTime := 0, Cmd := "", Alloc := 0, Sys := 0, HeapAlloc := 0, HeapInuse := 0,
    GCCPUFraction := ⟨0⟩ }

/-! ## Go slices over a heap of backing arrays -/

/-- The heap: the backing arrays allocated so far, in allocation order. -/
abbrev Heap := List (List debugStats)

/-- A slice header: backing array, offset of the first element in it, length and
capacity. -/
structure Slice where
  arr : Nat
  off : Nat
  len : Nat
  cap : Nat
deriving DecidableEq, Repr

/-- The backing array of a slice. -/
def Heap.array (h : Heap) (a : Nat) : List debugStats := h.getD a []

/-- The elements of a slice, in order. -/
def Heap.elems (h : Heap) (s : Slice) : List debugStats :=
  ((h.array s.arr).drop s.off).take s.len

/-- Go `make([]debugStats, len, cap)`: panics when `len > cap`. -/
def makeSlice (h : Heap) (len cap : Nat) : Option (Slice × Heap) :=
  if len ≤ cap then
    some ({ arr := h.length, off := 0, len := len, cap := cap },
          h ++ [List.replicate cap debugStats.zero])
  else none

/-- Go `s[i]` as a value: panics when `i` is not below `len(s)`. -/
def Heap.load (h : Heap) (s : Slice) (i : Nat) : Option debugStats :=
  if i < s.len then (h.array s.arr)[s.off + i]? else none

/-- Go `s[i] = v`: panics when `i` is not below `len(s)`. -/
def Heap.store (h : Heap) (s : Slice) (i : Nat) (v : debugStats) : Option Heap :=
  if i < s.len then some (h.set s.arr ((h.array s.arr).set (s.off + i) v)) else none

/-- Go `s[lo:]`: panics when `lo > len(s)`. -/
def Slice.sliceFrom (s : Slice) (lo : Nat) : Option Slice :=
  if lo ≤ s.len then
    some { arr := s.arr, off := s.off + lo, len := s.len - lo, cap := s.cap - lo }
  else none

/-- Go `s[:hi]`: panics when `hi > cap(s)`. -/
def Slice.sliceTo (s : Slice) (hi : Nat) : Option Slice :=
  if hi ≤ s.cap then some { arr := s.arr, off := s.off, len := hi, cap := s.cap }
  else none

/-- Overwrite the elements of `xs` from position `i` on with `ys`. -/
def writeAt (xs : List debugStats) (i : Nat) (ys : List debugStats) : List debugStats :=
  xs.take i ++ ys ++ xs.drop (i + ys.length)

/-- Go `append(s, t...)`. When the result fits `cap(s)` the backing array of `s` is
re-used (the new elements are written after the last element of `s`, and with no
new element the result is `s` itself); otherwise a new array holding the elements
of `s` followed by those of `t` is allocated. The capacity of a newly allocated
array is taken to be exactly the new length. -/
def goAppend (h : Heap) (s t : Slice) : Slice × Heap :=
  if s.len + t.len ≤ s.cap then
    ({ arr := s.arr, off := s.off, len := s.len + t.len, cap := s.cap },
     h.set s.arr (writeAt (h.array s.arr) (s.off + s.len) (h.elems t)))
  else
    ({ arr := h.length, off := 0, len := s.len + t.len, cap := s.len + t.len },
     h ++ [h.elems s ++ h.elems t])

/-! ## debugBuffer -/

/-- Go `type debugBuffer struct` (the embedded `sync.RWMutex` is not represented). -/
structure debugBuffer where
  currentPos : Nat
  length : Nat
  data : Slice
deriving DecidableEq, Repr

/-- The memory of the program: the heap of backing arrays and the `debugBuffer`
struct that `*debugBuffer` points to. -/
structure Store where
  heap : Heap
  buf : debugBuffer
deriving DecidableEq, Repr

/-- Go `newDebugBuffer(length)` (`NewDebugBuffer` in `main.go`), run on heap `h`. -/
def newDebugBuffer (h : Heap) (length : Nat) : Option Store :=
  match makeSlice h length length with
  | none => none
  | some (s, h1) => some { heap := h1, buf := { currentPos := 0, length := length, data := s } }

/-- Go `(*debugBuffer).Add`:
`dBuf.data[dBuf.currentPos] = dStats; dBuf.currentPos = (dBuf.currentPos + 1) % dBuf.length`. -/
def Add (st : Store) (dStats : debugStats) : Option Store :=
  match st.heap.store st.buf.data st.buf.currentPos dStats with
  | none => none
  | some h1 =>
    if st.buf.length = 0 then none
    else some { heap := h1,
                buf := { st.buf with currentPos := (st.buf.currentPos + 1) % st.buf.length } }

/-- Go `(*debugBuffer).Read`:
`return append(dBuf.data[dBuf.currentPos:], dBuf.data[:dBuf.currentPos]...)`.
The result is the returned slice header and the memory after the call. -/
def Read (st : Store) : Option (Slice × Store) :=
  match st.buf.data.sliceFrom st.buf.currentPos, st.buf.data.sliceTo st.buf.currentPos with
  | some a, some b =>
    let r := goAppend st.heap a b
    some (r.1, { st with heap := r.2 })
  | _, _ => none

/-- `Add` applied to a list of records in order. -/
def addAll : Store → List debugStats → Option Store
  | st, [] => some st
  | st, r :: rs =>
    match Add st r with
    | none => none
    | some st1 => addAll st1 rs

/-- The records of the slice returned by `Read`, as they are stored right after
the call. -/
def readRecords (st : Store) : Option (List debugStats) :=
  match Read st with
  | none => none
  | some (s, st1) => some (st1.heap.elems s)

/-! ## Fetching a snapshot -/

/-- The network as seen by `getStats`: for a requested URL, either the error
returned by `http.Get`, `ioutil.ReadAll` or `json.Unmarshal`, or the parsed
document. -/
abbrev Net := String → Except String debugVars

/-- The command-line flags read by the poller and the handlers. -/
structure Flags where
  monitoringHost : String
  monitoringPort : Int
  port : Int

/-- Go `fmt.Sprintf("http://%s:%d/debug/vars", host, port)`, the URL built in the
first line of `getStats`. -/
def getStatsURL (host : String) (port : Int) : String :=
  "http://" ++ host ++ ":" ++ toString port ++ "/debug/vars"

/-- Go `getStats(host, port)`: every error exit returns `(nil, err)`. -/
def getStats (net : Net) (host : String) (port : Int) : Except String debugVars :=
  net (getStatsURL host port)

/-! ## The poller -/

/-- How a run of the poller loop over finitely many ticks ends: still in the loop
waiting for the next tick, left through `return`, or stopped by a run-time panic
(which, in a goroutine, ends the process). -/
inductive LoopState where
  | running
  | returned
  | panicked
deriving DecidableEq, Repr

/-- The record built in the body of the loop of `updateStats`; `Cmdline[0]` panics
on an empty `Cmdline`. -/
def sampleOf (t : Time) (v : debugVars) : Option debugStats :=
  match v.Cmdline[0]? with
  | none => none
  | some cmd =>
    some { SampleTime := t, Cmd := cmd, Alloc := v.Memstats.Alloc, Sys := v.Memstats.Sys,
           HeapAlloc := v.Memstats.HeapAlloc, HeapInuse := v.Memstats.HeapInuse,
           GCCPUFraction := v.Memstats.GCCPUFraction }

/-- Go `updateStats(ticker)` run over the ticks delivered on `ticker.C`; each tick
carries its time and the state of the network at that moment. `st` is the memory
holding the global `sampleStats`. -/
def updateStats (flags : Flags) : List (Time × Net) → Store → LoopState × Store
  | [], st => (LoopState.running, st)
  | (t, net) :: rest, st =>
    match getStats net flags.monitoringHost flags.monitoringPort with
    | Except.error _ => (LoopState.returned, st)
    | Except.ok v =>
      match sampleOf t v with
      | none => (LoopState.panicked, st)
      | some r =>
        match Add st r with
        | none => (LoopState.panicked, st)
        | some st1 => updateStats flags rest st1

/-! ## The gateway handlers -/

/-- What a handler did: the URLs it requested from the network, in order, and the
body it wrote (`none` when the handler panicked before writing). -/
structure Response where
  requested : List String
  body : Option String
deriving DecidableEq, Repr

/-- The URL requested by the `/raw` handler of `expvardash.go`:
`fmt.Sprintf("http://%s:%d/debug/vars", *monitoringHost, *monitoringPort)`. -/
def rawURL (flags : Flags) : String :=
  "http://" ++ flags.monitoringHost ++ ":" ++ toString flags.monitoringPort ++ "/debug/vars"

/-- The URL requested by a tick of `updateStats`:
`getStats(*monitoringHost, *monitoringPort)`. -/
def pollerURL (flags : Flags) : String :=
  getStatsURL flags.monitoringHost flags.monitoringPort

/-- The index `(stats.Memstats.NumGC+255)%256`, computed in `uint32`. -/
def pauseIndex (numGC : Nat) : Nat :=
  ((numGC + 255) % 2 ^ 32) % 256

/-- The text written by the `/processed` handler when `getStats` fails:
`"Error reading http://%s:%d/debug/vars\n %v"`. -/
def processedError (flags : Flags) (err : String) : String :=
  "Error reading http://" ++ flags.monitoringHost ++ ":" ++ toString flags.monitoringPort
    ++ "/debug/vars\n " ++ err

/-- The first six lines of the summary written by the `/processed` handler. -/
def summaryHead (fmtFloat : float64 → String) (cmd : String) (m : MemStats) : String :=
  "cmd: " ++ cmd ++ "\nalloc: " ++ toString m.Alloc ++ "\nsys: " ++ toString m.Sys
    ++ "\nheap alloc: " ++ toString m.HeapAlloc ++ "\nheap in use: " ++ toString m.HeapInuse
    ++ "\nGC CPU use: " ++ fmtFloat m.GCCPUFraction ++ "\n"

/-- The summary written by the `/processed` handler on success; `fmtFloat` is the
`%v` rendering of a `float64`. `Cmdline[0]` panics on an empty `Cmdline`. -/
def processedSummary (fmtFloat : float64 → String) (stats : debugVars) : Option String :=
  match stats.Cmdline[0]?, stats.Memstats.PauseNs[pauseIndex stats.Memstats.NumGC]? with
  | some cmd, some pause =>
    some (summaryHead fmtFloat cmd stats.Memstats ++ "GC pause time: " ++ toString pause ++ "\n")
  | _, _ => none

/-- The `/processed` handler of `expvardash.go`, which starts with
`stats, err := getStats("localhost", *port)`. -/
def processedHandler (fmtFloat : float64 → String) (flags : Flags) (net : Net) : Response :=
  { requested := [getStatsURL "localhost" flags.port],
    body :=
      match getStats net "localhost" flags.port with
      | Except.error err => some (processedError flags err)
      | Except.ok stats => processedSummary fmtFloat stats }

/-- The `/processed` handler of `main.go`, which starts with
`stats, err := getStats("localhost", 8123)`. -/
def processedHandlerMain (fmtFloat : float64 → String) (flags : Flags) (net : Net) : Response :=
  { requested := [getStatsURL "localhost" 8123],
    body :=
      match getStats net "localhost" 8123 with
      | Except.error err => some (processedError flags err)
      | Except.ok stats => processedSummary fmtFloat stats }

/-! ## Specification-level definitions -/

/-- The representation invariant of a `debugBuffer` in memory: the capacity is
positive, the cursor is below it, and `data` is a whole allocated array of that
many slots (offset 0, len = cap = `length`). -/
def Store.WF (st : Store) : Prop :=
  1 ≤ st.buf.length ∧ st.buf.currentPos < st.buf.length ∧
  st.buf.data.off = 0 ∧ st.buf.data.len = st.buf.length ∧ st.buf.data.cap = st.buf.length ∧
  st.buf.data.arr < st.heap.length ∧ (st.heap.array st.buf.data.arr).length = st.buf.length

instance (st : Store) : Decidable st.WF := by
  unfold Store.WF; infer_instance

/-- The slots of the buffer read from the cursor on and wrapping around. -/
def Store.view (st : Store) : List debugStats :=
  (st.heap.array st.buf.data.arr).drop st.buf.currentPos ++
    (st.heap.array st.buf.data.arr).take st.buf.currentPos

/-- The memory states a program can reach from `newDebugBuffer(capacity)` with
`capacity ≥ 1` by calls of `Add` and `Read`. -/
inductive Reachable : Store → Prop where
  | init (h : Heap) (capacity : Nat) (st : Store) :
      1 ≤ capacity → newDebugBuffer h capacity = some st → Reachable st
  | add (st : Store) (r : debugStats) (st1 : Store) :
      Reachable st → Add st r = some st1 → Reachable st1
  | read (st : Store) (s : Slice) (st1 : Store) :
      Reachable st → Read st = some (s, st1) → Reachable st1

/-- What `Read` returns after `newDebugBuffer(capacity)` on heap `h` followed by
one `Add` for each record of `rs`, in order. -/
def readAfter (h : Heap) (capacity : Nat) (rs : List debugStats) : Option (List debugStats) :=
  match newDebugBuffer h capacity with
  | none => none
  | some st0 =>
    match addAll st0 rs with
    | none => none
    | some st => readRecords st

/-! ## Concrete inputs used to exercise the definitions -/

/-- A record sampled at time `n` from a process called `app`. -/
def sampleAt (n : Nat) : debugStats :=
  { SampleTime := n, Cmd := "app", Alloc := 100 + n, Sys := 200, HeapAlloc := 50,
    HeapInuse := 60, GCCPUFraction := ⟨0x3F847AE147AE147B⟩ }

/-- The document of the end-to-end example of the specification:
`Cmdline ["app"]`, `Alloc 100`, `Sys 200`, `HeapAlloc 50`, `HeapInuse 60`,
`GCCPUFraction 0.01` (bit pattern `0x3F847AE147AE147B`), `NumGC 5` and `PauseNs` zero
except index 4, which is 1000. -/
def appVars : debugVars :=
  { Cmdline := ["app"],
    Memstats :=
      { Alloc := 100, Sys := 200, HeapAlloc := 50, HeapInuse := 60,
        GCCPUFraction := ⟨0x3F847AE147AE147B⟩, NumGC := 5,
        PauseNs := (List.replicate 256 0).set 4 1000,
        PauseNs_len := by rw [List.length_set, List.length_replicate] } }

/-- The document `json.Unmarshal` produces from the JSON text of an empty object,
or from one whose `Cmdline` is an empty list: every field has its zero value. -/
def emptyVars : debugVars :=
  { Cmdline := [],
    Memstats :=
      { Alloc := 0, Sys := 0, HeapAlloc := 0, HeapInuse := 0, GCCPUFraction := ⟨0⟩,
        NumGC := 0, PauseNs := List.replicate 256 0,
        PauseNs_len := List.length_replicate 256 0 } }

/-- A network on which every request fails. -/
def netDown : Net := fun _ => Except.error "connection refused"

/-- A network on which every request is answered with `appVars`. -/
def netUp : Net := fun _ => Except.ok appVars

/-- A network on which every request is answered with `emptyVars`. -/
def netEmpty : Net := fun _ => Except.ok emptyVars

/-- Flags with a monitored target distinct from the dashboard itself. -/
def remoteFlags : Flags :=
  { monitoringHost := "example.com", monitoringPort := 9000, port := 8080 }

/-- A network on which only the monitored target of `remoteFlags` answers. -/
def netRemote : Net := fun url =>
  if url = "http://example.com:9000/debug/vars" then Except.ok appVars
  else Except.error "connection refused"

/-- A rendering of `float64` values that knows the one value of the example. -/
def fmtExample (x : float64) : String :=
  if x.bits = 0x3F847AE147AE147B then "0.01" else "?"

/-- The memory after the global initialisation `sampleStats = newDebugBuffer(10)`
on an empty heap. -/
def sampleStats0 : Store :=
  { heap := [List.replicate 10 debugStats.zero],
    buf := { currentPos := 0, length := 10,
             data := { arr := 0, off := 0, len := 10, cap := 10 } } }

/-- The memory after `newDebugBuffer(2)` on an empty heap and one `Add`. -/
def halfStore : Store :=
  { heap := [[sampleAt 1, debugStats.zero]],
    buf := { currentPos := 1, length := 2, data := { arr := 0, off := 0, len := 2, cap := 2 } } }

/-- The memory after `newDebugBuffer(2)` on an empty heap and two `Add`s: the
buffer is full and the cursor is back at 0. -/
def fullStore : Store :=
  { heap := [[sampleAt 1, sampleAt 2]],
    buf := { currentPos := 0, length := 2, data := { arr := 0, off := 0, len := 2, cap := 2 } } }

/-! ## Lemmas on the heap and on the buffer invariant -/

theorem Heap.array_set_same (h : Heap) (a : Nat) (x : List debugStats) (ha : a < h.length) :
    Heap.array (h.set a x) a = x := by
  simp [Heap.array, List.getD_eq_getElem?_getD, ha]

theorem Heap.array_set_other (h : Heap) (a b : Nat) (x : List debugStats) (hab : a ≠ b) :
    Heap.array (h.set a x) b = Heap.array h b := by
  simp [Heap.array, List.getD_eq_getElem?_getD, List.getElem?_set, hab]

theorem Heap.array_append_old (h : Heap) (x : List debugStats) (a : Nat) (ha : a < h.length) :
    Heap.array (h ++ [x]) a = Heap.array h a := by
  simp [Heap.array, List.getD_eq_getElem?_getD, List.getElem?_append_left ha]

theorem Heap.array_append_new (h : Heap) (x : List debugStats) :
    Heap.array (h ++ [x]) h.length = x := by
  simp [Heap.array, List.getD_eq_getElem?_getD]

theorem Heap.set_array_self (h : Heap) (a : Nat) : h.set a (Heap.array h a) = h := by
  apply List.ext_getElem?
  intro i
  by_cases hi : a = i
  · subst hi
    by_cases ha : a < h.length
    · simp [Heap.array, List.getD_eq_getElem?_getD, List.getElem?_set, ha]
    · have hle : h.length ≤ a := Nat.le_of_not_lt ha
      simp [List.getElem?_eq_none hle, hle]
  · simp [List.getElem?_set, hi]

theorem writeAt_nil (xs : List debugStats) (i : Nat) : writeAt xs i [] = xs := by
  simp [writeAt]

theorem Store.view_length (st : Store) (hwf : st.WF) : st.view.length = st.buf.length := by
  obtain ⟨_, hp, _, _, _, _, hlen⟩ := hwf
  simp [Store.view, hlen]
  omega

theorem newDebugBuffer_spec (h : Heap) (c : Nat) (hc : 1 ≤ c) :
    ∃ st, newDebugBuffer h c = some st ∧ st.WF ∧ st.buf.length = c ∧ st.buf.currentPos = 0 ∧
      st.view = List.replicate c debugStats.zero := by
  refine ⟨{ heap := h ++ [List.replicate c debugStats.zero],
            buf := { currentPos := 0, length := c,
                     data := { arr := h.length, off := 0, len := c, cap := c } } }, ?_, ?_, rfl, rfl, ?_⟩
  · simp [newDebugBuffer, makeSlice]
  · simp [Store.WF, Heap.array_append_new]
    omega
  · simp [Store.view, Heap.array_append_new]

theorem Add_spec (st : Store) (r : debugStats) (hwf : st.WF) :
    ∃ st1, Add st r = some st1 ∧ st1.WF ∧ st1.buf.length = st.buf.length ∧
      st1.buf.data = st.buf.data ∧
      st1.buf.currentPos = (st.buf.currentPos + 1) % st.buf.length ∧
      st1.heap = st.heap.set st.buf.data.arr
        ((st.heap.array st.buf.data.arr).set st.buf.currentPos r) ∧
      st1.view = st.view.drop 1 ++ [r] := by
  obtain ⟨hc, hp, hoff, hlen, hcap, harr, hA⟩ := hwf
  have hc0 : st.buf.length ≠ 0 := by omega
  have hmod : (st.buf.currentPos + 1) % st.buf.length < st.buf.length :=
    Nat.mod_lt _ (by omega)
  refine ⟨{ heap := st.heap.set st.buf.data.arr
              ((st.heap.array st.buf.data.arr).set st.buf.currentPos r),
            buf := { st.buf with currentPos := (st.buf.currentPos + 1) % st.buf.length } },
          ?_, ?_, rfl, rfl, rfl, rfl, ?_⟩
  · simp [Add, Heap.store, hlen, hp, hoff, hc0]
  · simp [Store.WF, hc, hmod, hoff, hlen, hcap, harr, Heap.array_set_same, hA]
  · simp only [Store.view, Heap.array_set_same _ _ _ harr]
    generalize st.heap.array st.buf.data.arr = A at hA
    generalize st.buf.currentPos = p at hp hmod
    generalize st.buf.length = c at hA hp hc hc0 hmod
    subst hA
    have hdrop : A.drop p = A[p] :: A.drop (p + 1) := List.drop_eq_getElem_cons hp
    have hset : A.set p r = A.take p ++ r :: A.drop (p + 1) := by
      rw [List.set_eq_take_append_cons_drop, if_pos hp]
    have htl : (A.take p).length = p := by
      rw [List.length_take]; omega
    have h1 : (A.set p r).drop (p + 1) = A.drop (p + 1) := by
      rw [hset, List.drop_append_eq_append_drop, htl]
      have : List.drop (p + 1) (List.take p A) = [] := by
        apply List.drop_eq_nil_of_le; omega
      simp [this]
    have h2 : (A.set p r).take (p + 1) = A.take p ++ [r] := by
      rw [hset, List.take_append_eq_append_take, htl]
      have : List.take (p + 1) (List.take p A) = A.take p := by
        apply List.take_of_length_le; omega
      simp [this]
    by_cases hlast : p + 1 = A.length
    · have hz : (p + 1) % A.length = 0 := by rw [hlast]; exact Nat.mod_self _
      have hd1 : A.drop (p + 1) = [] := by rw [hlast]; exact List.drop_length A
      rw [hz, hdrop, hd1, hset, hd1]
      simp only [List.drop_zero, List.take_zero, List.append_nil, List.cons_append,
        List.nil_append, List.drop_succ_cons]
    · have hlt : p + 1 < A.length := by omega
      rw [Nat.mod_eq_of_lt hlt, hdrop, h1, h2]
      simp only [List.cons_append, List.drop_succ_cons, List.drop_zero, List.append_assoc]

theorem Read_at_zero (st : Store) (hwf : st.WF) (hp0 : st.buf.currentPos = 0) :
    Read st = some (st.buf.data, st) := by
  obtain ⟨heap, ⟨p, c, ⟨arr, off, len, cap⟩⟩⟩ := st
  obtain ⟨hc, hp, hoff, hlen, hcap, harr, hA⟩ := hwf
  simp only at hc hp hoff hlen hcap harr hA hp0
  subst hoff hlen hcap hp0
  simp [Read, Slice.sliceFrom, Slice.sliceTo, goAppend, Heap.elems, writeAt_nil,
    Heap.set_array_self]

theorem Read_at_pos (st : Store) (hwf : st.WF) (hp0 : 0 < st.buf.currentPos) :
    Read st = some ({ arr := st.heap.length, off := 0, len := st.buf.length,
                      cap := st.buf.length },
                    { st with heap := st.heap ++ [st.view] }) := by
  obtain ⟨heap, ⟨p, c, ⟨arr, off, len, cap⟩⟩⟩ := st
  obtain ⟨hc, hp, hoff, hlen, hcap, harr, hA⟩ := hwf
  simp only at hc hp hoff hlen hcap harr hA hp0
  subst hoff hlen hcap
  have hple : p ≤ cap := Nat.le_of_lt hp
  have hnot : ¬ (cap - p + p ≤ cap - p) := by omega
  have hsum : cap - p + p = cap := by omega
  have hnot2 : ¬ (cap ≤ cap - p) := by omega
  have hta : List.take (cap - p) (List.drop p (Heap.array heap arr)) =
      List.drop p (Heap.array heap arr) := by
    apply List.take_of_length_le
    rw [List.length_drop, hA]
  simp [Read, Slice.sliceFrom, Slice.sliceTo, goAppend, Heap.elems, hple, hnot, hsum,
    Store.view, hta, hnot2]

theorem Read_WF (st : Store) (hwf : st.WF) :
    ∃ s st1, Read st = some (s, st1) ∧ st1.WF ∧ st1.buf = st.buf ∧
      st1.heap.elems s = st.view ∧
      (∀ a, a < st.heap.length → st1.heap.array a = st.heap.array a) := by
  have hview : st.view.length = st.buf.length := st.view_length hwf
  by_cases hp0 : st.buf.currentPos = 0
  · refine ⟨st.buf.data, st, Read_at_zero st hwf hp0, hwf, rfl, ?_, fun _ _ => rfl⟩
    obtain ⟨hc, hp, hoff, hlen, hcap, harr, hA⟩ := hwf
    simp [Heap.elems, Store.view, hoff, hlen, hp0, ← hA]
  · have hpos : 0 < st.buf.currentPos := Nat.pos_of_ne_zero hp0
    refine ⟨_, _, Read_at_pos st hwf hpos, ?_, rfl, ?_, ?_⟩
    · obtain ⟨hc, hp, hoff, hlen, hcap, harr, hA⟩ := hwf
      refine ⟨hc, hp, hoff, hlen, hcap, ?_, ?_⟩
      · simp only [List.length_append, List.length_singleton]; omega
      · simp only [Heap.array_append_old _ _ _ harr]; exact hA
    · simp only [Heap.elems, Heap.array_append_new, List.drop_zero]
      apply List.take_of_length_le
      rw [hview]
    · intro a ha
      exact Heap.array_append_old _ _ _ ha

theorem readRecords_eq_view (st : Store) (hwf : st.WF) : readRecords st = some st.view := by
  obtain ⟨s, st1, hR, _, _, hel, _⟩ := Read_WF st hwf
  simp [readRecords, hR, hel]

theorem Reachable.wf {st : Store} (hr : Reachable st) : st.WF := by
  induction hr with
  | init h c st hc hnew =>
    obtain ⟨st0, h0, hwf, _⟩ := newDebugBuffer_spec h c hc
    rw [hnew] at h0
    cases h0
    exact hwf
  | add st r st1 _ hadd ih =>
    obtain ⟨st2, h2, hwf, _⟩ := Add_spec st r ih
    rw [hadd] at h2
    cases h2
    exact hwf
  | read st s st1 _ hread ih =>
    obtain ⟨s2, st2, h2, hwf, _⟩ := Read_WF st ih
    rw [hread] at h2
    cases h2
    exact hwf

theorem drop_one_append_drop (L rs : List debugStats) (r : debugStats) (hL : 1 ≤ L.length) :
    ((L.drop 1 ++ [r]) ++ rs).drop rs.length = (L ++ r :: rs).drop (rs.length + 1) := by
  cases L with
  | nil => simp at hL
  | cons x L1 => simp

theorem addAll_spec (rs : List debugStats) :
    ∀ st : Store, st.WF →
      ∃ st1, addAll st rs = some st1 ∧ st1.WF ∧ st1.buf.length = st.buf.length ∧
        st1.view = (st.view ++ rs).drop rs.length := by
  induction rs with
  | nil =>
    intro st hwf
    exact ⟨st, rfl, hwf, rfl, by simp⟩
  | cons r rs ih =>
    intro st hwf
    obtain ⟨st1, hadd, hwf1, hlen1, _, _, _, hview1⟩ := Add_spec st r hwf
    obtain ⟨st2, hall, hwf2, hlen2, hview2⟩ := ih st1 hwf1
    refine ⟨st2, ?_, hwf2, by rw [hlen2, hlen1], ?_⟩
    · simp [addAll, hadd, hall]
    · rw [hview2, hview1]
      have hL : 1 ≤ st.view.length := by
        rw [st.view_length hwf]; exact hwf.1
      simpa using drop_one_append_drop st.view rs r hL

theorem readAfter_eq (h : Heap) (c : Nat) (rs : List debugStats) (hc : 1 ≤ c) :
    readAfter h c rs = some ((List.replicate c debugStats.zero ++ rs).drop rs.length) := by
  obtain ⟨st0, hnew, hwf0, _, _, hview0⟩ := newDebugBuffer_spec h c hc
  obtain ⟨st, hall, hwf, _, hview⟩ := addAll_spec rs st0 hwf0
  simp [readAfter, hnew, hall, readRecords_eq_view st hwf, hview, hview0]

/-! ## The ring history -/

/-- C1: for capacity ≥ 1 and N ≥ capacity records appended with `Add` to a buffer made
by `newDebugBuffer(capacity)`, `Read` returns exactly `capacity` records, namely the last
`capacity` appended ones in append order (record `i` of the result is appended record
`N - capacity + i`; the first is the `(N - capacity + 1)`-th, the last the `N`-th), and
if the records were appended in non-decreasing `SampleTime` order then the result is in
non-decreasing `SampleTime` order. -/
theorem C1_read_returns_last_capacity_records (h : Heap) (capacity : Nat)
    (rs : List debugStats) (hc : 1 ≤ capacity) (hN : capacity ≤ rs.length) :
    ∃ out, readAfter h capacity rs = some out ∧ out.length = capacity ∧
      out = rs.drop (rs.length - capacity) ∧
      (∀ i, i < capacity → out[i]? = rs[rs.length - capacity + i]?) ∧
      out[0]? = rs[rs.length - capacity]? ∧
      out[capacity - 1]? = rs[rs.length - 1]? ∧
      (List.Chain' (· ≤ ·) (rs.map debugStats.SampleTime) →
        List.Sorted (· ≤ ·) (out.map debugStats.SampleTime)) := by
  have hout : (List.replicate capacity debugStats.zero ++ rs).drop rs.length =
      rs.drop (rs.length - capacity) := by
    rw [List.drop_append_eq_append_drop, List.length_replicate]
    have : List.drop rs.length (List.replicate capacity debugStats.zero) = [] := by
      apply List.drop_eq_nil_of_le
      rw [List.length_replicate]; exact hN
    rw [this, List.nil_append]
  have hget : ∀ i, (rs.drop (rs.length - capacity))[i]? = rs[rs.length - capacity + i]? := by
    intro i
    rw [List.getElem?_drop]
  refine ⟨rs.drop (rs.length - capacity), ?_, ?_, rfl, fun i _ => hget i, ?_, ?_, ?_⟩
  · rw [readAfter_eq h capacity rs hc, hout]
  · rw [List.length_drop]; omega
  · exact hget 0
  · rw [hget]
    congr 1
    omega
  · intro hch
    have hs : List.Sorted (· ≤ ·) (rs.map debugStats.SampleTime) :=
      List.chain'_iff_pairwise.mp hch
    rw [List.map_drop]
    exact List.Pairwise.sublist (List.drop_sublist _ _) hs

/-- Witness for C1: capacity 2, three records appended at times 1, 2, 3. -/
theorem C1_read_returns_last_capacity_records_witness :
    (1 ≤ 2 ∧ 2 ≤ [sampleAt 1, sampleAt 2, sampleAt 3].length) ∧
    (∃ out, readAfter [] 2 [sampleAt 1, sampleAt 2, sampleAt 3] = some out ∧ out.length = 2 ∧
      out = [sampleAt 1, sampleAt 2, sampleAt 3].drop
              ([sampleAt 1, sampleAt 2, sampleAt 3].length - 2) ∧
      (∀ i, i < 2 → out[i]? =
        [sampleAt 1, sampleAt 2, sampleAt 3][[sampleAt 1, sampleAt 2, sampleAt 3].length - 2 + i]?) ∧
      out[0]? = [sampleAt 1, sampleAt 2, sampleAt 3][[sampleAt 1, sampleAt 2, sampleAt 3].length - 2]? ∧
      out[2 - 1]? = [sampleAt 1, sampleAt 2, sampleAt 3][[sampleAt 1, sampleAt 2, sampleAt 3].length - 1]? ∧
      (List.Chain' (· ≤ ·) ([sampleAt 1, sampleAt 2, sampleAt 3].map debugStats.SampleTime) →
        List.Sorted (· ≤ ·) (out.map debugStats.SampleTime))) ∧
    readAfter [] 2 [sampleAt 1, sampleAt 2, sampleAt 3] = some [sampleAt 2, sampleAt 3] :=
  ⟨⟨by decide, by decide⟩,
   C1_read_returns_last_capacity_records [] 2 [sampleAt 1, sampleAt 2, sampleAt 3]
     (by decide) (by decide),
   by decide⟩

/-- C2: for capacity ≥ 1 and N < capacity records appended with `Add` to a fresh buffer
made by `newDebugBuffer(capacity)`, `Read` returns exactly `capacity` records: the first
`capacity - N` are the zero-value `debugStats` and the last `N` are the appended records in
append order. -/
theorem C2_read_of_partly_filled_buffer (h : Heap) (capacity : Nat)
    (rs : List debugStats) (hc : 1 ≤ capacity) (hN : rs.length < capacity) :
    ∃ out, readAfter h capacity rs = some out ∧ out.length = capacity ∧
      out = List.replicate (capacity - rs.length) debugStats.zero ++ rs ∧
      out.take (capacity - rs.length) = List.replicate (capacity - rs.length) debugStats.zero ∧
      out.drop (capacity - rs.length) = rs := by
  have hout : (List.replicate capacity debugStats.zero ++ rs).drop rs.length =
      List.replicate (capacity - rs.length) debugStats.zero ++ rs := by
    rw [List.drop_append_eq_append_drop, List.length_replicate, List.drop_replicate]
    have : rs.length - capacity = 0 := by omega
    rw [this, List.drop_zero]
  refine ⟨_, ?_, ?_, rfl, ?_, ?_⟩
  · rw [readAfter_eq h capacity rs hc, hout]
  · rw [List.length_append, List.length_replicate]; omega
  · rw [List.take_left']
    exact List.length_replicate _ _
  · rw [List.drop_left']
    exact List.length_replicate _ _

/-- Witness for C2: capacity 3, one record appended. -/
theorem C2_read_of_partly_filled_buffer_witness :
    (1 ≤ 3 ∧ [sampleAt 1].length < 3) ∧
    (∃ out, readAfter [] 3 [sampleAt 1] = some out ∧ out.length = 3 ∧
      out = List.replicate (3 - [sampleAt 1].length) debugStats.zero ++ [sampleAt 1] ∧
      out.take (3 - [sampleAt 1].length) =
        List.replicate (3 - [sampleAt 1].length) debugStats.zero ∧
      out.drop (3 - [sampleAt 1].length) = [sampleAt 1]) ∧
    readAfter [] 3 [sampleAt 1] = some [debugStats.zero, debugStats.zero, sampleAt 1] :=
  ⟨⟨by decide, by decide⟩,
   C2_read_of_partly_filled_buffer [] 3 [sampleAt 1] (by decide) (by decide),
   by decide⟩

theorem Heap.elems_whole (h : Heap) (s : Slice) (hoff : s.off = 0)
    (hlen : (h.array s.arr).length = s.len) : h.elems s = h.array s.arr := by
  simp only [Heap.elems, hoff, List.drop_zero]
  apply List.take_of_length_le
  rw [hlen]

/-- When the cursor is not at 0, the slice returned by `Read` has its own backing
array: a later `Add` does not change its records. -/
theorem Read_result_after_Add_at_pos (st : Store) (r : debugStats) (hwf : st.WF)
    (hp0 : 0 < st.buf.currentPos) :
    ∃ s st1 st2, Read st = some (s, st1) ∧ Add st1 r = some st2 ∧ s.arr ≠ st.buf.data.arr ∧
      st2.heap.elems s = st1.heap.elems s := by
  obtain ⟨s, st1, hR, hwf1, hbuf, _, _⟩ := Read_WF st hwf
  obtain ⟨st2, hadd, _, _, _, _, hheap, _⟩ := Add_spec st1 r hwf1
  have hR2 := Read_at_pos st hwf hp0
  rw [hR] at hR2
  injection hR2 with hR2
  injection hR2 with hs hst1
  have harr : st.buf.data.arr < st.heap.length := hwf.2.2.2.2.2.1
  have hne : st.buf.data.arr ≠ s.arr := by
    rw [hs]; exact Nat.ne_of_lt harr
  refine ⟨s, st1, st2, hR, hadd, fun e => hne e.symm, ?_⟩
  rw [hheap, hbuf]
  simp only [Heap.elems, Heap.array_set_other _ _ _ _ hne]

/-- When the cursor is at 0, the slice returned by `Read` is `data` itself, and a
later `Add` overwrites its first record. -/
theorem Read_result_after_Add_at_zero (st : Store) (r : debugStats) (hwf : st.WF)
    (hp0 : st.buf.currentPos = 0) :
    ∃ st2, Read st = some (st.buf.data, st) ∧ Add st r = some st2 ∧
      st2.heap.elems st.buf.data = (st.heap.elems st.buf.data).set 0 r := by
  obtain ⟨st2, hadd, _, _, _, _, hheap, _⟩ := Add_spec st r hwf
  obtain ⟨_, _, hoff, hlen, _, harr, hA⟩ := hwf
  refine ⟨st2, Read_at_zero st ⟨‹_›, ‹_›, hoff, hlen, ‹_›, harr, hA⟩ hp0, hadd, ?_⟩
  rw [Heap.elems_whole st.heap st.buf.data hoff (by rw [hA, hlen])]
  rw [Heap.elems_whole st2.heap st.buf.data hoff
    (by rw [hheap, Heap.array_set_same _ _ _ harr, List.length_set, hA, hlen])]
  rw [hheap, Heap.array_set_same _ _ _ harr, hp0]

/-- C3 (fails on the code): on a full buffer of capacity 2, whose cursor is back at 0,
`Read` returns the slice header of `data` itself and allocates nothing; the records of
the returned slice are `[sampleAt 1, sampleAt 2]` right after the call and
`[sampleAt 3, sampleAt 2]` after the next `Add`. -/
theorem C3_read_returns_live_view_at_cursor_zero :
    (newDebugBuffer [] 2).bind (fun st => addAll st [sampleAt 1, sampleAt 2]) = some fullStore ∧
    fullStore.buf.currentPos = 0 ∧
    Read fullStore = some (fullStore.buf.data, fullStore) ∧
    fullStore.heap.elems fullStore.buf.data = [sampleAt 1, sampleAt 2] ∧
    ∃ st2, Add fullStore (sampleAt 3) = some st2 ∧
      st2.heap.elems fullStore.buf.data = [sampleAt 3, sampleAt 2] ∧
      st2.heap.elems fullStore.buf.data ≠ fullStore.heap.elems fullStore.buf.data := by
  refine ⟨by decide, by decide, by decide, by decide,
    { heap := [[sampleAt 3, sampleAt 2]],
      buf := { currentPos := 1, length := 2,
               data := { arr := 0, off := 0, len := 2, cap := 2 } } }, ?_, ?_, ?_⟩ <;> decide

/-- C8: in every reachable memory state `Read` succeeds and leaves `currentPos`, `length`
and the `data` header unchanged, leaves every backing array that existed before the call
unchanged (so every slot of `data` holds what it held; `data` has capacity equal to its
length), and a second `Read` right after returns a sequence equal to the first, which is
itself still intact. -/
theorem C8_read_has_no_effect_on_buffer (st : Store) (hst : Reachable st) :
    ∃ s st1, Read st = some (s, st1) ∧
      st1.buf.currentPos = st.buf.currentPos ∧ st1.buf.length = st.buf.length ∧
      st1.buf.data = st.buf.data ∧ st.buf.data.cap = st.buf.data.len ∧
      (∀ a, a < st.heap.length → st1.heap.array a = st.heap.array a) ∧
      (∀ i, st1.heap.load st1.buf.data i = st.heap.load st.buf.data i) ∧
      ∃ s2 st2, Read st1 = some (s2, st2) ∧ st2.buf = st.buf ∧
        st2.heap.elems s2 = st1.heap.elems s ∧ st2.heap.elems s = st1.heap.elems s := by
  have hwf : st.WF := hst.wf
  obtain ⟨s, st1, hR, hwf1, hbuf, hel, hold⟩ := Read_WF st hwf
  obtain ⟨s2, st2, hR2, hwf2, hbuf2, hel2, hold2⟩ := Read_WF st1 hwf1
  have harr : st.buf.data.arr < st.heap.length := hwf.2.2.2.2.2.1
  have hview1 : st1.view = st.view := by
    simp only [Store.view, hbuf, hold _ harr]
  refine ⟨s, st1, hR, by rw [hbuf], by rw [hbuf], by rw [hbuf], ?_, hold, ?_,
    s2, st2, hR2, by rw [hbuf2, hbuf], ?_, ?_⟩
  · rw [hwf.2.2.2.1, hwf.2.2.2.2.1]
  · intro i
    simp only [Heap.load, hbuf, hold _ harr]
  · rw [hel2, hview1, hel]
  · by_cases hp0 : st.buf.currentPos = 0
    · have h0 := Read_at_zero st hwf hp0
      rw [hR] at h0
      injection h0 with h0
      injection h0 with hs hst1
      have h1 := Read_at_zero st1 hwf1 (by rw [hbuf]; exact hp0)
      rw [hR2] at h1
      injection h1 with h1
      injection h1 with hs2 hst2
      rw [hst2]
    · have hpos : 0 < st.buf.currentPos := Nat.pos_of_ne_zero hp0
      have h0 := Read_at_pos st hwf hpos
      rw [hR] at h0
      injection h0 with h0
      injection h0 with hs hst1
      have hlt : s.arr < st1.heap.length := by
        rw [hs, hst1]
        simp
      simp only [Heap.elems, hold2 _ hlt]

/-- Witness for C8: the buffer of capacity 2 after one `Add`. -/
theorem C8_read_has_no_effect_on_buffer_witness :
    Reachable halfStore ∧
    ∃ s st1, Read halfStore = some (s, st1) ∧
      st1.buf.currentPos = halfStore.buf.currentPos ∧ st1.buf.length = halfStore.buf.length ∧
      st1.buf.data = halfStore.buf.data ∧ halfStore.buf.data.cap = halfStore.buf.data.len ∧
      (∀ a, a < halfStore.heap.length → st1.heap.array a = halfStore.heap.array a) ∧
      (∀ i, st1.heap.load st1.buf.data i = halfStore.heap.load halfStore.buf.data i) ∧
      ∃ s2 st2, Read st1 = some (s2, st2) ∧ st2.buf = halfStore.buf ∧
        st2.heap.elems s2 = st1.heap.elems s ∧ st2.heap.elems s = st1.heap.elems s :=
  have hr : Reachable halfStore :=
    Reachable.add
      { heap := [[debugStats.zero, debugStats.zero]],
        buf := { currentPos := 0, length := 2,
                 data := { arr := 0, off := 0, len := 2, cap := 2 } } }
      (sampleAt 1) halfStore
      (Reachable.init [] 2 _ (by decide) (by decide)) (by decide)
  ⟨hr, C8_read_has_no_effect_on_buffer halfStore hr⟩

/-! ## The poller -/

set_option maxRecDepth 20000

/-- A tick whose fetch fails ends the loop: the ticks after it are never looked at. -/
theorem updateStats_of_failed_tick (flags : Flags) (t : Time) (net : Net) (err : String)
    (rest : List (Time × Net)) (st : Store)
    (hget : getStats net flags.monitoringHost flags.monitoringPort = Except.error err) :
    updateStats flags ((t, net) :: rest) st = (LoopState.returned, st) := by
  simp [updateStats, hget]

/-- A tick whose document has an empty `Cmdline` stops the loop with a panic. -/
theorem updateStats_of_empty_cmdline (flags : Flags) (t : Time) (net : Net) (v : debugVars)
    (rest : List (Time × Net)) (st : Store)
    (hget : getStats net flags.monitoringHost flags.monitoringPort = Except.ok v)
    (hcmd : v.Cmdline = []) :
    updateStats flags ((t, net) :: rest) st = (LoopState.panicked, st) := by
  simp [updateStats, hget, sampleOf, hcmd]

/-- C4 (fails on the code): with the target down for ticks 1, 2, 3 and up at tick 4,
`updateStats` leaves the loop through `return` at tick 1 with the history untouched; the
next `Read` returns ten zero-value records and the record of tick 4 is not among them. -/
theorem C4_poller_returns_at_first_failed_tick :
    updateStats remoteFlags [(1, netDown), (2, netDown), (3, netDown), (4, netUp)] sampleStats0
      = (LoopState.returned, sampleStats0) ∧
    readRecords sampleStats0 = some (List.replicate 10 debugStats.zero) ∧
    ∃ r, sampleOf 4 appVars = some r ∧ r ∉ List.replicate 10 debugStats.zero := by
  refine ⟨by decide, by decide,
    { SampleTime := 4, Cmd := "app", Alloc := 100, Sys := 200, HeapAlloc := 50, HeapInuse := 60,
      GCCPUFraction := ⟨0x3F847AE147AE147B⟩ }, by decide, by decide⟩

/-- C5: in a reachable memory state, a tick with time `t` whose `getStats` succeeds with a
document `v` with non-empty `Cmdline` makes `updateStats` call `Add` once, with the record
whose `SampleTime` is `t`, `Cmd` is `v.Cmdline[0]` and whose five counters are those of
`v.Memstats`, and go on with the remaining ticks; after that tick alone the loop is still
running and `Read` returns what it returned before without its oldest record and with this
record at the end. -/
theorem C5_successful_tick_appends_one_record (flags : Flags) (t : Time) (net : Net)
    (v : debugVars) (cmd : String) (cs : List String) (rest : List (Time × Net)) (st : Store)
    (hst : Reachable st)
    (hget : getStats net flags.monitoringHost flags.monitoringPort = Except.ok v)
    (hcmd : v.Cmdline = cmd :: cs) :
    ∃ st1 old,
      Add st { SampleTime := t, Cmd := cmd, Alloc := v.Memstats.Alloc, Sys := v.Memstats.Sys,
               HeapAlloc := v.Memstats.HeapAlloc, HeapInuse := v.Memstats.HeapInuse,
               GCCPUFraction := v.Memstats.GCCPUFraction } = some st1 ∧
      updateStats flags ((t, net) :: rest) st = updateStats flags rest st1 ∧
      updateStats flags [(t, net)] st = (LoopState.running, st1) ∧
      st1.buf.length = st.buf.length ∧
      readRecords st = some old ∧
      readRecords st1 = some (old.drop 1 ++
        [{ SampleTime := t, Cmd := cmd, Alloc := v.Memstats.Alloc, Sys := v.Memstats.Sys,
           HeapAlloc := v.Memstats.HeapAlloc, HeapInuse := v.Memstats.HeapInuse,
           GCCPUFraction := v.Memstats.GCCPUFraction }]) := by
  have hwf : st.WF := hst.wf
  obtain ⟨st1, hadd, hwf1, hlen, _, _, _, hview⟩ :=
    Add_spec st { SampleTime := t, Cmd := cmd, Alloc := v.Memstats.Alloc, Sys := v.Memstats.Sys,
                  HeapAlloc := v.Memstats.HeapAlloc, HeapInuse := v.Memstats.HeapInuse,
                  GCCPUFraction := v.Memstats.GCCPUFraction } hwf
  refine ⟨st1, st.view, hadd, ?_, ?_, hlen, readRecords_eq_view st hwf, ?_⟩
  · simp [updateStats, hget, sampleOf, hcmd, hadd]
  · simp [updateStats, hget, sampleOf, hcmd, hadd]
  · rw [readRecords_eq_view st1 hwf1, hview]

/-- Witness for C5: the first tick, at time 7, on the fresh `sampleStats` with the
document of the end-to-end example; the record has `Cmd "app"`, `Alloc 100` and the
`GCCPUFraction` of the document. -/
theorem C5_successful_tick_appends_one_record_witness :
    (Reachable sampleStats0 ∧
      getStats netUp remoteFlags.monitoringHost remoteFlags.monitoringPort = Except.ok appVars ∧
      appVars.Cmdline = "app" :: []) ∧
    ∃ st1 old,
      Add sampleStats0
        { SampleTime := 7, Cmd := "app", Alloc := appVars.Memstats.Alloc,
          Sys := appVars.Memstats.Sys, HeapAlloc := appVars.Memstats.HeapAlloc,
          HeapInuse := appVars.Memstats.HeapInuse,
          GCCPUFraction := appVars.Memstats.GCCPUFraction } = some st1 ∧
      updateStats remoteFlags ((7, netUp) :: []) sampleStats0 = updateStats remoteFlags [] st1 ∧
      updateStats remoteFlags [(7, netUp)] sampleStats0 = (LoopState.running, st1) ∧
      st1.buf.length = sampleStats0.buf.length ∧
      readRecords sampleStats0 = some old ∧
      readRecords st1 = some (old.drop 1 ++
        [{ SampleTime := 7, Cmd := "app", Alloc := appVars.Memstats.Alloc,
           Sys := appVars.Memstats.Sys, HeapAlloc := appVars.Memstats.HeapAlloc,
           HeapInuse := appVars.Memstats.HeapInuse,
           GCCPUFraction := appVars.Memstats.GCCPUFraction }]) :=
  have hr : Reachable sampleStats0 := Reachable.init [] 10 sampleStats0 (by decide) (by decide)
  ⟨⟨hr, rfl, rfl⟩,
   C5_successful_tick_appends_one_record remoteFlags 7 netUp appVars "app" [] [] sampleStats0
     hr rfl rfl⟩

/-- C9 (fails on the code): a tick whose fetch succeeds with the document of an empty JSON
object, whose `Cmdline` is empty, stops `updateStats` with an index-out-of-range panic at
`debugVars.Cmdline[0]`. -/
theorem C9_poller_panics_on_empty_cmdline :
    getStats netEmpty remoteFlags.monitoringHost remoteFlags.monitoringPort = Except.ok emptyVars ∧
    emptyVars.Cmdline = [] ∧
    sampleOf 1 emptyVars = none ∧
    updateStats remoteFlags [(1, netEmpty)] sampleStats0 = (LoopState.panicked, sampleStats0) := by
  refine ⟨rfl, rfl, by decide, by decide⟩

/-! ## The gateway handlers -/

/-- C6 (fails on the code): with `-monhost example.com -monport 9000 -port 8080` the
`/processed` handler of `expvardash.go` requests `http://localhost:8080/debug/vars`, built
from the dashboard's own serving port, and the one of `main.go` requests the constant
`http://localhost:8123/debug/vars`, while the poller and the `/raw` handler request
`http://example.com:9000/debug/vars`; when only the monitored target answers, the handler
writes an error that names the URL of the monitored target. -/
theorem C6_processed_handler_requests_own_port (fmtFloat : float64 → String) (net : Net) :
    (processedHandler fmtFloat remoteFlags net).requested = ["http://localhost:8080/debug/vars"] ∧
    (processedHandlerMain fmtFloat remoteFlags net).requested
      = ["http://localhost:8123/debug/vars"] ∧
    pollerURL remoteFlags = "http://example.com:9000/debug/vars" ∧
    rawURL remoteFlags = "http://example.com:9000/debug/vars" ∧
    (processedHandler fmtFloat remoteFlags netRemote).body
      = some "Error reading http://example.com:9000/debug/vars\n connection refused" := by
  refine ⟨?_, ?_, by decide, by decide, ?_⟩
  · show [getStatsURL "localhost" 8080] = _
    decide
  · show [getStatsURL "localhost" 8123] = _
    decide
  · show (match getStats netRemote "localhost" 8080 with
      | Except.error err => some (processedError remoteFlags err)
      | Except.ok stats => processedSummary fmtFloat stats) = _
    have hne : ¬ (getStatsURL "localhost" 8080 = "http://example.com:9000/debug/vars") := by
      decide
    have hget : getStats netRemote "localhost" 8080 = Except.error "connection refused" := by
      show (if getStatsURL "localhost" 8080 = "http://example.com:9000/debug/vars"
        then Except.ok appVars else Except.error "connection refused") = _
      rw [if_neg hne]
    rw [hget]
    show some (processedError remoteFlags "connection refused") = _
    decide

/-- In every configuration the `/processed` handler of `expvardash.go` requests the
URL built from `localhost` and the serving port. -/
theorem processedHandler_requested (fmtFloat : float64 → String) (flags : Flags) (net : Net) :
    (processedHandler fmtFloat flags net).requested = [getStatsURL "localhost" flags.port] :=
  rfl

/-- C7: for every `NumGC` below `2^32`, the index computed by the `/processed` handler is
below 256, equals `(NumGC + 255) mod 256` over the naturals, the lookup in `PauseNs`
succeeds, and whenever the handler renders a summary the text after `"GC pause time: "`
is the decimal rendering of `PauseNs` at that index. -/
theorem C7_pause_index_in_range_and_rendered (fmtFloat : float64 → String) (flags : Flags)
    (net : Net) (stats : debugVars) (hn : stats.Memstats.NumGC < 2 ^ 32) :
    pauseIndex stats.Memstats.NumGC < 256 ∧
    pauseIndex stats.Memstats.NumGC = (stats.Memstats.NumGC + 255) % 256 ∧
    (stats.Memstats.NumGC + 255) % 2 ^ 32 =
      (if stats.Memstats.NumGC + 255 < 2 ^ 32 then stats.Memstats.NumGC + 255
       else stats.Memstats.NumGC + 255 - 2 ^ 32) ∧
    ∃ pause, stats.Memstats.PauseNs[(stats.Memstats.NumGC + 255) % 256]? = some pause ∧
      stats.Memstats.PauseNs[pauseIndex stats.Memstats.NumGC]? = some pause ∧
      ∀ cmd, stats.Cmdline[0]? = some cmd →
        getStats net "localhost" flags.port = Except.ok stats →
        (processedHandler fmtFloat flags net).body =
          some (summaryHead fmtFloat cmd stats.Memstats ++ "GC pause time: " ++ toString pause
            ++ "\n") := by
  have hidx : pauseIndex stats.Memstats.NumGC = (stats.Memstats.NumGC + 255) % 256 := by
    unfold pauseIndex
    omega
  have hlt : (stats.Memstats.NumGC + 255) % 256 < stats.Memstats.PauseNs.length := by
    rw [stats.Memstats.PauseNs_len]
    exact Nat.mod_lt _ (by decide)
  have hwrap : (stats.Memstats.NumGC + 255) % 2 ^ 32 =
      (if stats.Memstats.NumGC + 255 < 2 ^ 32 then stats.Memstats.NumGC + 255
       else stats.Memstats.NumGC + 255 - 2 ^ 32) := by
    split <;> omega
  refine ⟨by rw [hidx]; exact Nat.mod_lt _ (by decide), hidx, hwrap,
    stats.Memstats.PauseNs[(stats.Memstats.NumGC + 255) % 256], ?_, ?_, ?_⟩
  · exact List.getElem?_eq_getElem hlt
  · rw [hidx]
    exact List.getElem?_eq_getElem hlt
  · intro cmd hcmd hget
    simp only [processedHandler, hget, processedSummary, hcmd, hidx,
      List.getElem?_eq_getElem hlt]

/-- Witness for C7: the document of the end-to-end example, `NumGC = 5` and `PauseNs`
zero except index 4 = 1000; the handler renders `GC pause time: 1000`. -/
theorem C7_pause_index_in_range_and_rendered_witness :
    appVars.Memstats.NumGC < 2 ^ 32 ∧
    (pauseIndex appVars.Memstats.NumGC < 256 ∧
     pauseIndex appVars.Memstats.NumGC = (appVars.Memstats.NumGC + 255) % 256 ∧
     (appVars.Memstats.NumGC + 255) % 2 ^ 32 =
       (if appVars.Memstats.NumGC + 255 < 2 ^ 32 then appVars.Memstats.NumGC + 255
        else appVars.Memstats.NumGC + 255 - 2 ^ 32) ∧
     ∃ pause, appVars.Memstats.PauseNs[(appVars.Memstats.NumGC + 255) % 256]? = some pause ∧
      appVars.Memstats.PauseNs[pauseIndex appVars.Memstats.NumGC]? = some pause ∧
      ∀ cmd, appVars.Cmdline[0]? = some cmd →
        getStats netUp "localhost" remoteFlags.port = Except.ok appVars →
        (processedHandler fmtExample remoteFlags netUp).body =
          some (summaryHead fmtExample cmd appVars.Memstats ++ "GC pause time: "
            ++ toString pause ++ "\n")) ∧
    appVars.Cmdline[0]? = some "app" ∧
    getStats netUp "localhost" remoteFlags.port = Except.ok appVars ∧
    pauseIndex appVars.Memstats.NumGC = 4 ∧
    appVars.Memstats.PauseNs[pauseIndex appVars.Memstats.NumGC]? = some 1000 ∧
    (processedHandler fmtExample remoteFlags netUp).body =
      some ("cmd: app\nalloc: 100\nsys: 200\nheap alloc: 50\nheap in use: 60\n"
        ++ "GC CPU use: 0.01\nGC pause time: 1000\n") :=
  ⟨by decide,
   C7_pause_index_in_range_and_rendered fmtExample remoteFlags netUp appVars (by decide),
   rfl, rfl, by decide, by decide, by decide⟩

end Expvardash
